import Mathlib

/-!
# Verification of the CI auto-fix loop (`src/hooks/ci_auto_fix.py`)

This file gives a shallow embedding of the CI auto-fix subsystem and proves
properties of it.  External commands (`gh`, `ruff`, `git`, `claude`) are
modelled as oracles: functions from a call index (or a command history) to
that call's observable result, exactly mirroring how the repository's own
test-suite mocks them.  Machine effects that the Python code itself ignores
are not modelled; every branch of the Lean definitions corresponds to a
branch of the Python source.

Main correspondences:
* `Check`            — one parsed element of `gh pr checks --json bucket,name,link`.
* `get_ci_status`    — the status prober (bucket classification and the
                       `(None, None)` sentinel), `ci_auto_fix.py` lines 61-80.
* `get_failure_logs` — the log fetcher with its 3000-character cap, lines 83-101.
* `attempt_lint_fix` — the deterministic fixer with the exit-127 fallback,
                       lines 104-127.
* `commit_and_push`  — the publish step, lines 153-177.
* `ciLoop` / `run_ci_auto_fix` — the orchestrating loop, lines 180-252,
                       written with explicit fuel (the Python loop can run
                       forever; `none` means the fuel ran out).  The loop
                       records every collaborator invocation and every log
                       call in an event trace, and threads the append-only
                       log file content (a write can fail, modelled by the
                       `logOk` oracle; the Python `_log` swallows the failure).
-/

/-- One CI check as parsed from the prober's JSON output.  The `bucket`
field is the raw string from the external system (the code compares it
against the literals `"pending"` and `"fail"`). -/
structure Check where
  bucket : String
  name : String
deriving DecidableEq

/-- `LOG_LIMIT` constant: max chars of CI failure log (line 30). -/
def LOG_LIMIT : Nat := 3000

/-- Python `str.strip()` whitespace test (ASCII whitespace). -/
def pyIsSpace (c : Char) : Bool :=
  c == ' ' || c == '\t' || c == '\n' || c == '\r' || c == '\x0b' || c == '\x0c'

/-- Python `s.strip()`: drop leading and trailing whitespace characters. -/
def pyStrip (s : String) : String :=
  ⟨((s.data.dropWhile pyIsSpace).reverse.dropWhile pyIsSpace).reverse⟩

/-- Python `s[:n]`: the first `n` characters of `s`. -/
def pySlice (s : String) (n : Nat) : String :=
  ⟨s.data.take n⟩

/-- Result of the external `gh pr checks` command as seen by `get_ci_status`:
its exit code, and the result of JSON-decoding its stdout (`none` models a
`json.JSONDecodeError`). -/
structure QueryResult where
  exitCode : Int
  parsed : Option (List Check)

/-- `get_ci_status` (lines 61-80): returns `(pending, failed)` check lists,
or the sentinel (`none`, modelling Python's `(None, None)`) when the command
exits non-zero or its output is not valid JSON.  `pending` collects the
checks whose bucket is `"pending"`; `failed` those whose bucket is `"fail"`. -/
def get_ci_status (q : QueryResult) : Option (List Check × List Check) :=
  if q.exitCode ≠ 0 then none
  else
    match q.parsed with
    | none => none
    | some checks =>
        some (checks.filter (fun c => c.bucket == "pending"),
              checks.filter (fun c => c.bucket == "fail"))

/-- Inputs of `get_failure_logs`: stdout of the `gh run list … --jq …`
command (the failed-run id query) and stdout of `gh run view <id> --log-failed`. -/
structure LogEnv where
  listStdout : String
  viewStdout : String

/-- `get_failure_logs` (lines 83-101): strip the run-id query output; if it
is empty there is no failed run and the result is `""`; otherwise return the
log stdout truncated to `LOG_LIMIT` characters.  The function is total: no
input makes it raise. -/
def get_failure_logs (e : LogEnv) : String :=
  let runId := pyStrip e.listStdout
  if runId = "" then "" else pySlice e.viewStdout LOG_LIMIT

/-- The commands `attempt_lint_fix` can run, in source order. -/
inductive LintCmd where
  | ruffFix
  | makeLintFix
  | ruffFormat
  | gitStatus
deriving DecidableEq

/-- Observable result of one external command: exit code and stdout. -/
structure CmdOut where
  exitCode : Int
  stdout : String

/-- `attempt_lint_fix` (lines 104-127).  The oracle `env` maps a command and
the history of commands already run (the fix commands mutate the working
tree, so later results may depend on earlier commands) to that command's
result.  Runs `ruff check --fix .`; on exit code 127 falls back to
`make lint-fix` (skipping `ruff format .`), otherwise runs `ruff format .`;
finally returns `bool(git status --porcelain stdout .strip())` together with
the list of commands that were run. -/
def attempt_lint_fix (env : LintCmd → List LintCmd → CmdOut) : Bool × List LintCmd :=
  let r1 := env LintCmd.ruffFix []
  if r1.exitCode = 127 then
    let st := env LintCmd.gitStatus [LintCmd.ruffFix, LintCmd.makeLintFix]
    (!(pyStrip st.stdout).isEmpty, [LintCmd.ruffFix, LintCmd.makeLintFix, LintCmd.gitStatus])
  else
    let st := env LintCmd.gitStatus [LintCmd.ruffFix, LintCmd.ruffFormat]
    (!(pyStrip st.stdout).isEmpty, [LintCmd.ruffFix, LintCmd.ruffFormat, LintCmd.gitStatus])

/-- The log messages the subsystem writes (string formatting abstracted;
each constructor is one `_log(...)` call site of the source). -/
inductive Msg where
  /-- "Starting CI auto-fix for PR #…" -/
  | start
  /-- "  n checks still pending..." -/
  | pendingCount (n : Nat)
  /-- "✅ All CI checks passed!" -/
  | allPassed
  /-- "❌ n CI check(s) failed (attempt shown/maxR)" -/
  | checksFailed (n shown maxR : Nat)
  /-- "⛔ Max retries (maxR) reached. Manual fix required." -/
  | maxReached (maxR : Nat)
  /-- "Lint fix made no changes, trying claude fix..." -/
  | lintNoChanges
  /-- "⛔ Commit/push failed. Stopping." -/
  | pushFailedStop
  /-- "Pushed fix attempt n" -/
  | pushedAttempt (n : Nat)
  /-- "Nothing to commit" (inside `commit_and_push`) -/
  | nothingToCommit
  /-- "Push failed: …" (inside `commit_and_push`) -/
  | pushFailed
deriving DecidableEq

/-- `_log` (lines 46-53): append `m` to the log file.  `ok = false` models
the write raising (disk error, unwritable path); the `except Exception: pass`
of the source swallows it, so the file is simply left unchanged and the
caller continues — which is why this is a total function. -/
def pyLog (ok : Bool) (file : List Msg) (m : Msg) : List Msg :=
  if ok then file ++ [m] else file

/-- Inputs of `commit_and_push`: exit codes of `git commit` and `git push`
(the `git add -A` result is ignored by the source). -/
structure PushEnv where
  commitExit : Int
  pushExit : Int

/-- `commit_and_push` (lines 153-177): commit exit ≠ 0 means nothing to
commit (log and return `false`); push exit ≠ 0 means push failed (log and
return `false`); otherwise `true`.  `logOk` and `wi` model whether the
`_log` writes succeed; `file` is the log file content, returned updated. -/
def commit_and_push (e : PushEnv) (logOk : Nat → Bool) (wi : Nat) (file : List Msg) :
    Bool × List Msg :=
  if e.commitExit ≠ 0 then (false, pyLog (logOk wi) file Msg.nothingToCommit)
  else if e.pushExit ≠ 0 then (false, pyLog (logOk wi) file Msg.pushFailed)
  else (true, file)

/-- Events of one run of the loop: each collaborator invocation (with its
result) and each `_log` call (with its message). -/
inductive Ev where
  | probe (r : Option (List Check × List Check))
  | fetchLogs
  | lintFix (changed : Bool)
  | claudeFix
  | push (ok : Bool)
  | log (m : Msg)
deriving DecidableEq

/-- The loop's collaborators: the `j`-th call to `get_ci_status` returns
`probe j` (`none` = the `(None, None)` sentinel); the `j`-th call to
`attempt_lint_fix` returns `lint j`; the `j`-th call to `commit_and_push`
returns `push j`; the `j`-th `_log` write succeeds iff `logOk j`. -/
structure Oracle where
  probe : Nat → Option (List Check × List Check)
  lint : Nat → Bool
  push : Nat → Bool
  logOk : Nat → Bool

/-- Result of the inner pending-wait loop: next probe index, next log-write
index, log file content, the final values of the Python variables `pending`
and `failed` (each possibly `None`), and the events of this phase. -/
structure PendRes where
  k : Nat
  wi : Nat
  file : List Msg
  pending : Option (List Check)
  failed : Option (List Check)
  tr : List Ev
deriving DecidableEq

/-- Result of a terminated run: exit code, event trace, log file content. -/
structure RunRes where
  code : Nat
  tr : List Ev
  file : List Msg
deriving DecidableEq

/-- Prepend the events `pre` to the trace of a pending-wait result. -/
def pendWithPre (pre : List Ev) : Option PendRes → Option PendRes
  | none => none
  | some r => some { r with tr := pre ++ r.tr }

/-- Prepend the events `pre` to the trace of a loop result. -/
def withPre (pre : List Ev) : Option RunRes → Option RunRes
  | none => none
  | some r => some { r with tr := pre ++ r.tr }

/-- The inner pending-wait loop of `run_ci_auto_fix` (lines 215-221):
`while pending:` log the pending count, wait, re-probe; a sentinel answer
sets both variables to `None` and breaks out.  Fuel bounds the number of
iterations; `none` means the fuel ran out. -/
def pendingLoop (o : Oracle) :
    Nat → Nat → Nat → List Msg → Option (List Check) → Option (List Check) → Option PendRes
  | 0, _, _, _, _, _ => none
  | _ + 1, k, wi, file, none, f => some ⟨k, wi, file, none, f, []⟩
  | fuel + 1, k, wi, file, some pl, f =>
    if pl = [] then some ⟨k, wi, file, some pl, f, []⟩
    else
      let file1 := pyLog (o.logOk wi) file (Msg.pendingCount pl.length)
      match o.probe k with
      | none =>
          some ⟨k + 1, wi + 1, file1, none, none,
                [Ev.log (Msg.pendingCount pl.length), Ev.probe none]⟩
      | some (pl', fl') =>
          pendWithPre [Ev.log (Msg.pendingCount pl.length), Ev.probe (some (pl', fl'))]
            (pendingLoop o fuel (k + 1) (wi + 1) file1 (some pl') (some fl'))

/-- The main loop of `run_ci_auto_fix` (lines 204-252), one recursive call
per `while True` iteration.  Arguments after the fuel: current `attempt`,
probe call index, lint call index, push call index, log-write index, and
log file content.  `none` means the fuel ran out (the Python loop is
unbounded). -/
def ciLoop (o : Oracle) (maxRetries : Nat) :
    Nat → Nat → Nat → Nat → Nat → Nat → List Msg → Option RunRes
  | 0, _, _, _, _, _, _ => none
  | fuel + 1, attempt, k, li, pi, wi, file =>
    match o.probe k with
    | none =>
        -- gh call failed; retry after a short pause (lines 208-211)
        withPre [Ev.probe none] (ciLoop o maxRetries fuel attempt (k + 1) li pi wi file)
    | some (pl, fl) =>
        match pendingLoop o fuel (k + 1) wi file (some pl) (some fl) with
        | none => none
        | some pr =>
            let fl' := pr.failed.getD []
            if fl' = [] then
              -- `if not failed:` success path (lines 224-227)
              some ⟨0, Ev.probe (some (pl, fl)) :: pr.tr ++ [Ev.log Msg.allPassed],
                    pyLog (o.logOk pr.wi) pr.file Msg.allPassed⟩
            else
              let m1 := Msg.checksFailed fl'.length (attempt + 1) maxRetries
              let file1 := pyLog (o.logOk pr.wi) pr.file m1
              let tr1 := Ev.probe (some (pl, fl)) :: pr.tr ++ [Ev.log m1]
              if maxRetries ≤ attempt then
                some ⟨1, tr1 ++ [Ev.log (Msg.maxReached maxRetries)],
                      pyLog (o.logOk (pr.wi + 1)) file1 (Msg.maxReached maxRetries)⟩
              else
                if o.lint li then
                  if o.push pi then
                    withPre (tr1 ++ [Ev.fetchLogs, Ev.lintFix true, Ev.push true,
                                     Ev.log (Msg.pushedAttempt (attempt + 1))])
                      (ciLoop o maxRetries fuel (attempt + 1) pr.k (li + 1) (pi + 1)
                        (pr.wi + 2)
                        (pyLog (o.logOk (pr.wi + 1)) file1 (Msg.pushedAttempt (attempt + 1))))
                  else
                    some ⟨2, tr1 ++ [Ev.fetchLogs, Ev.lintFix true, Ev.push false,
                                     Ev.log Msg.pushFailedStop],
                          pyLog (o.logOk (pr.wi + 1)) file1 Msg.pushFailedStop⟩
                else
                  let file2 := pyLog (o.logOk (pr.wi + 1)) file1 Msg.lintNoChanges
                  if o.push pi then
                    withPre (tr1 ++ [Ev.fetchLogs, Ev.lintFix false, Ev.log Msg.lintNoChanges,
                                     Ev.claudeFix, Ev.push true,
                                     Ev.log (Msg.pushedAttempt (attempt + 1))])
                      (ciLoop o maxRetries fuel (attempt + 1) pr.k (li + 1) (pi + 1)
                        (pr.wi + 3)
                        (pyLog (o.logOk (pr.wi + 2)) file2 (Msg.pushedAttempt (attempt + 1))))
                  else
                    some ⟨2, tr1 ++ [Ev.fetchLogs, Ev.lintFix false, Ev.log Msg.lintNoChanges,
                                     Ev.claudeFix, Ev.push false, Ev.log Msg.pushFailedStop],
                          pyLog (o.logOk (pr.wi + 2)) file2 Msg.pushFailedStop⟩

/-- `run_ci_auto_fix` (lines 180-252): log the start message, then run the
loop from attempt 0 with all call counters at 0 (log-write index 1: the
start message consumed write 0). -/
def run_ci_auto_fix (o : Oracle) (maxRetries : Nat) (fuel : Nat) : Option RunRes :=
  match ciLoop o maxRetries fuel 0 0 0 0 1 (pyLog (o.logOk 0) [] Msg.start) with
  | none => none
  | some r => some { r with tr := Ev.log Msg.start :: r.tr }

/-- Is this event a probe (a `get_ci_status` call)? -/
def isProbeEv : Ev → Bool
  | Ev.probe _ => true
  | _ => false

/-- Is this event a publish (a `commit_and_push` call)? -/
def isPushEv : Ev → Bool
  | Ev.push _ => true
  | _ => false

/-- Is this event a collaborator invocation (anything but a `_log` call)? -/
def isCallEv : Ev → Bool
  | Ev.log _ => false
  | _ => true

/-- Number of `get_ci_status` calls recorded in a trace. -/
def probeCount (tr : List Ev) : Nat := tr.countP (fun e => isProbeEv e)

/-- Number of `commit_and_push` calls recorded in a trace. -/
def pushCount (tr : List Ev) : Nat := tr.countP (fun e => isPushEv e)

/-! ## Concrete test data shared by witnesses and counterexamples -/

/-- A failing check, as in the repository's test-suite fixtures. -/
def cFail : Check := ⟨"fail", "lint"⟩

/-- A pending check. -/
def cPend : Check := ⟨"pending", "lint"⟩

/-- Oracle of a run whose every probe reports one failing check and whose
lint fixes and pushes always succeed (end-to-end scenario C). -/
def failOracle : Oracle :=
  ⟨fun _ => some ([], [cFail]), fun _ => true, fun _ => true, fun _ => true⟩

/-- Oracle whose first probe reports one pending check and whose every
later probe fails (the `(None, None)` sentinel). -/
def sentinelOracle : Oracle :=
  ⟨fun k => if k = 0 then some ([cPend], []) else none,
   fun _ => true, fun _ => true, fun _ => true⟩

/-- Oracle of a run with one failing check whose publish step fails. -/
def pushFailOracle : Oracle :=
  ⟨fun _ => some ([], [cFail]), fun _ => true, fun _ => false, fun _ => true⟩

/-! ## C5 — sentinel versus empty result in `get_ci_status` -/

/-- C5: `get_ci_status` returns the sentinel (`(None, None)`, embedded as
`none`) iff the external query exits non-zero or its output fails to parse
as JSON; a successful query parsing to an empty check list returns the
distinct value `([], [])`. -/
theorem get_ci_status_sentinel_iff (q : QueryResult) :
    (get_ci_status q = none ↔ (q.exitCode ≠ 0 ∨ q.parsed = none)) ∧
    (q.exitCode = 0 → q.parsed = some [] → get_ci_status q = some ([], [])) := by
  constructor
  · constructor
    · intro h
      by_cases he : q.exitCode = 0
      · right
        cases hp : q.parsed with
        | none => rfl
        | some l => simp [get_ci_status, he, hp] at h
      · exact Or.inl he
    · intro h
      rcases h with he | hp
      · simp [get_ci_status, he]
      · simp [get_ci_status, hp]
  · intro he hp
    simp [get_ci_status, he, hp]

/-- Witness for C5 at the concrete successful-empty query. -/
theorem get_ci_status_sentinel_iff_witness :
    get_ci_status ⟨0, some []⟩ = some ([], []) :=
  (get_ci_status_sentinel_iff ⟨0, some []⟩).2 rfl rfl

/-! ## C3 — bucket classification in `get_ci_status` -/

/-- C3 counterexample: a successfully parsed check whose bucket is
`"skipping"` — which is neither `"pending"` nor `"pass"` — appears in
neither returned list (the code only puts bucket `"fail"` into
`failed_checks`), refuting the claim that every check with a bucket other
than `"pending"`/`"pass"` appears in `failed_checks`. -/
theorem get_ci_status_skipping_in_neither_list :
    get_ci_status ⟨0, some [⟨"skipping", "s"⟩]⟩ = some ([], []) ∧
    ("skipping" : String) ≠ "pending" ∧ ("skipping" : String) ≠ "pass" := by
  refine ⟨by decide, by decide, by decide⟩

/-- C3 (amended): for every check list successfully returned and parsed by
`get_ci_status`, `pending_checks` holds exactly the checks with bucket
`"pending"` and `failed_checks` exactly those with bucket `"fail"`; checks
with any other bucket (in particular `"pass"`) appear in neither list. -/
theorem get_ci_status_classification (q : QueryResult) (pend fld : List Check)
    (h : get_ci_status q = some (pend, fld)) :
    ∃ checks, q.parsed = some checks ∧
      (∀ c, c ∈ pend ↔ c ∈ checks ∧ c.bucket = "pending") ∧
      (∀ c, c ∈ fld ↔ c ∈ checks ∧ c.bucket = "fail") := by
  by_cases he : q.exitCode = 0
  · cases hp : q.parsed with
    | none => simp [get_ci_status, he, hp] at h
    | some checks =>
        simp only [get_ci_status, he, hp, ne_eq, not_true_eq_false, if_false,
          Option.some.injEq, Prod.mk.injEq] at h
        obtain ⟨h1, h2⟩ := h
        subst h1; subst h2
        exact ⟨checks, rfl, fun c => by simp [List.mem_filter],
               fun c => by simp [List.mem_filter]⟩
  · simp [get_ci_status, he] at h

/-- Witness for C3 (amended) at a concrete parsed check list. -/
theorem get_ci_status_classification_witness :
    ∃ checks, (QueryResult.mk 0 (some [cPend, cFail])).parsed = some checks ∧
      (∀ c, c ∈ [cPend] ↔ c ∈ checks ∧ c.bucket = "pending") ∧
      (∀ c, c ∈ [cFail] ↔ c ∈ checks ∧ c.bucket = "fail") :=
  get_ci_status_classification ⟨0, some [cPend, cFail]⟩ [cPend] [cFail] (by decide)

/-! ## C7 — failure-log truncation -/

/-- Length of a Python slice: `min`. -/
theorem pySlice_length (s : String) (n : Nat) : (pySlice s n).length = min n s.length :=
  List.length_take ..

/-- A slice longer than the string is the string itself. -/
theorem pySlice_of_length_le (s : String) (n : Nat) (h : s.length ≤ n) : pySlice s n = s := by
  show String.mk (s.data.take n) = s
  rw [List.take_of_length_le h]

/-- C7: `get_failure_logs` always returns at most `LOG_LIMIT` characters;
when a failed run is identified, a log longer than the limit is truncated to
exactly the limit and a log not exceeding the limit is returned unmodified;
when no failed run is identified (the stripped run-id query output is
empty) the result is the empty string.  The embedded function is total on
all inputs, matching the source's never-raises contract. -/
theorem get_failure_logs_spec (e : LogEnv) :
    (get_failure_logs e).length ≤ LOG_LIMIT ∧
    (pyStrip e.listStdout ≠ "" → LOG_LIMIT < e.viewStdout.length →
       (get_failure_logs e).length = LOG_LIMIT) ∧
    (pyStrip e.listStdout ≠ "" → e.viewStdout.length ≤ LOG_LIMIT →
       get_failure_logs e = e.viewStdout) ∧
    (pyStrip e.listStdout = "" → get_failure_logs e = "") := by
  refine ⟨?_, ?_, ?_, ?_⟩
  · simp only [get_failure_logs]
    by_cases hs : pyStrip e.listStdout = ""
    · rw [if_pos hs]; decide
    · rw [if_neg hs, pySlice_length]; exact Nat.min_le_left ..
  · intro hs h
    simp only [get_failure_logs]
    rw [if_neg hs, pySlice_length]; omega
  · intro hs h
    simp only [get_failure_logs]
    rw [if_neg hs]; exact pySlice_of_length_le _ _ h
  · intro hs
    simp only [get_failure_logs]
    rw [if_pos hs]

/-- Witness for C7: a run id is found and a 4000-character log is truncated
to exactly 3000 characters. -/
theorem get_failure_logs_spec_witness :
    pyStrip "99\n" ≠ "" ∧ LOG_LIMIT < (String.mk (List.replicate 4000 'x')).length ∧
    (get_failure_logs ⟨"99\n", String.mk (List.replicate 4000 'x')⟩).length = LOG_LIMIT := by
  have h1 : pyStrip "99\n" ≠ "" := by simp [pyStrip, pyIsSpace]
  have h2 : LOG_LIMIT < (String.mk (List.replicate 4000 'x')).length := by
    show LOG_LIMIT < (List.replicate 4000 'x').length
    rw [List.length_replicate, LOG_LIMIT]; omega
  exact ⟨h1, h2, ((get_failure_logs_spec ⟨"99\n", String.mk (List.replicate 4000 'x')⟩).2.1) h1 h2⟩

/-! ## C8 — lint-fix fallback on exit code 127 -/

/-- Command oracle for the counterexample: `ruff check --fix .` is not
installed (exit 127) and `git status --porcelain` prints a single newline
(non-empty but whitespace-only output). -/
def lintEnvWhitespace : LintCmd → List LintCmd → CmdOut := fun c _ =>
  match c with
  | LintCmd.ruffFix => ⟨127, ""⟩
  | LintCmd.gitStatus => ⟨0, "\n"⟩
  | _ => ⟨0, ""⟩

/-- C8 counterexample: with the primary linter missing (exit 127) and the
post-fallback status output `"\n"` — a non-empty string — the function
returns `false`, because the source tests `bool(stdout.strip())`, not
`bool(stdout)`.  This refutes "true if and only if the status output is
non-empty" as literally stated. -/
theorem attempt_lint_fix_whitespace_status :
    (lintEnvWhitespace LintCmd.ruffFix []).exitCode = 127 ∧
    (lintEnvWhitespace LintCmd.gitStatus [LintCmd.ruffFix, LintCmd.makeLintFix]).stdout ≠ "" ∧
    (attempt_lint_fix lintEnvWhitespace).1 = false := by
  refine ⟨rfl, by decide, by decide⟩

/-- C8 (amended): whenever the primary lint command exits with code 127,
the fallback `make lint-fix` is invoked exactly once, `ruff format .` is
skipped, and the result is `true` iff the status output inspected after the
fallback ran is non-empty after stripping whitespace. -/
theorem attempt_lint_fix_fallback (env : LintCmd → List LintCmd → CmdOut)
    (h : (env LintCmd.ruffFix []).exitCode = 127) :
    (attempt_lint_fix env).2 = [LintCmd.ruffFix, LintCmd.makeLintFix, LintCmd.gitStatus] ∧
    ((attempt_lint_fix env).2.count LintCmd.makeLintFix = 1 ∧
      LintCmd.ruffFormat ∉ (attempt_lint_fix env).2) ∧
    ((attempt_lint_fix env).1 = true ↔
      pyStrip (env LintCmd.gitStatus [LintCmd.ruffFix, LintCmd.makeLintFix]).stdout ≠ "") := by
  unfold attempt_lint_fix
  rw [if_pos h]
  refine ⟨rfl, ⟨rfl, ?_⟩, ?_⟩
  · show LintCmd.ruffFormat ∉ [LintCmd.ruffFix, LintCmd.makeLintFix, LintCmd.gitStatus]
    decide
  · show (!(pyStrip (env LintCmd.gitStatus
        [LintCmd.ruffFix, LintCmd.makeLintFix]).stdout).isEmpty) = true ↔
      pyStrip (env LintCmd.gitStatus [LintCmd.ruffFix, LintCmd.makeLintFix]).stdout ≠ ""
    rw [Bool.not_eq_true', ← Bool.not_eq_true, not_iff_not]
    exact String.isEmpty_iff _

/-- Witness for C8 (amended): `ruff` missing and a real change reported by
the post-fallback status query. -/
def lintEnvChanged : LintCmd → List LintCmd → CmdOut := fun c _ =>
  match c with
  | LintCmd.ruffFix => ⟨127, ""⟩
  | LintCmd.gitStatus => ⟨0, "M x.py\n"⟩
  | _ => ⟨0, ""⟩

/-- Witness for C8 (amended) at `lintEnvChanged`. -/
theorem attempt_lint_fix_fallback_witness :
    (attempt_lint_fix lintEnvChanged).2 =
      [LintCmd.ruffFix, LintCmd.makeLintFix, LintCmd.gitStatus] ∧
    ((attempt_lint_fix lintEnvChanged).2.count LintCmd.makeLintFix = 1 ∧
      LintCmd.ruffFormat ∉ (attempt_lint_fix lintEnvChanged).2) ∧
    ((attempt_lint_fix lintEnvChanged).1 = true ↔
      pyStrip (lintEnvChanged LintCmd.gitStatus
        [LintCmd.ruffFix, LintCmd.makeLintFix]).stdout ≠ "") :=
  attempt_lint_fix_fallback lintEnvChanged rfl

/-! ## C4 — sentinel handling in the orchestrating loop (code bug) -/

/-- C4 (code bug exhibited): with one pending check on the first probe and
the sentinel `(None, None)` on the second (in the pending-wait phase), the
loop immediately returns exit code 0 and logs "All CI checks passed" — a
terminal transition taken on the basis of the sentinel alone.  The source's
inner `while pending:` loop breaks with `pending = failed = None`, and the
following `if not failed:` treats `None` as success (lines 215-227),
contradicting the module's own contract that 0 means "CI passed" and the
retry handling given to the same sentinel at the top of the loop. -/
theorem run_returns_success_after_sentinel :
    run_ci_auto_fix sentinelOracle 3 3 =
      some ⟨0,
            [Ev.log Msg.start, Ev.probe (some ([cPend], [])),
             Ev.log (Msg.pendingCount 1), Ev.probe none, Ev.log Msg.allPassed],
            [Msg.start, Msg.pendingCount 1, Msg.allPassed]⟩ := by
  decide

/-! ## C9 — logged attempt numbers (code bug) -/

/-- C9 (code bug exhibited): in a never-succeeding run with
`max_retries = 3`, the log file ends up containing the line
"❌ 1 CI check(s) failed (attempt 4/3)" (`Msg.checksFailed 1 4 3`): the
source logs `attempt {attempt + 1}/{max_retries}` *before* the
`attempt >= max_retries` guard (lines 229-236), so at the final pass the
logged attempt number exceeds `max_retries` — exactly the "4/3" display the
repository's own test `test_max_retries_display_no_overflow` asserts never
appears. -/
theorem logged_attempt_number_overflow :
    Msg.checksFailed 1 4 3 ∈ (run_ci_auto_fix failOracle 3 8).elim [] RunRes.file ∧
    ¬ (4 ≤ 3) := by
  exact ⟨by decide, by decide⟩

/-! ## C1 — the never-succeeding run: exit 1 after `max_retries + 1` probes
and `max_retries` publishes -/

/-- Prepending events adds their probe/push counts to a mapped loop result. -/
theorem withPre_map_counts (pre : List Ev) (X : Option RunRes) (c p q : Nat)
    (h : X.map (fun r => (r.code, probeCount r.tr, pushCount r.tr)) = some (c, p, q)) :
    (withPre pre X).map (fun r => (r.code, probeCount r.tr, pushCount r.tr)) =
      some (c, probeCount pre + p, pushCount pre + q) := by
  cases X with
  | none => simp at h
  | some r =>
      simp at h
      obtain ⟨h1, h2, h3⟩ := h
      subst h2
      subst h3
      simp [withPre, h1, probeCount, pushCount, List.countP_append]

/-- Induction core for C1: from any state with `attempt + d = maxRetries`,
if every probe reports no pending checks and a non-empty failed list, lint
fixes always report changes and publishes always succeed, the loop exits
with code 1 after `d + 1` further probes and `d` further publishes. -/
theorem ciLoop_allFailing (o : Oracle) (m : Nat)
    (hp : ∀ j, ∃ fl, fl ≠ [] ∧ o.probe j = some ([], fl))
    (hl : ∀ j, o.lint j = true) (hpu : ∀ j, o.push j = true) :
    ∀ d a k li pi wi file fuel, a + d = m → d + 2 ≤ fuel →
      (ciLoop o m fuel a k li pi wi file).map
        (fun r => (r.code, probeCount r.tr, pushCount r.tr)) = some (1, d + 1, d) := by
  intro d
  induction d with
  | zero =>
      intro a k li pi wi file fuel ha hfuel
      obtain ⟨fl, hfl, hpk⟩ := hp k
      obtain ⟨t, rfl⟩ : ∃ t, fuel = t + 2 := ⟨fuel - 2, by omega⟩
      have ha' : m ≤ a := by omega
      simp [ciLoop, hpk, pendingLoop, hfl, ha', probeCount, pushCount,
        List.countP_cons, List.countP_append, isProbeEv, isPushEv]
  | succ d ih =>
      intro a k li pi wi file fuel ha hfuel
      obtain ⟨fl, hfl, hpk⟩ := hp k
      obtain ⟨t, rfl⟩ : ∃ t, fuel = t + 2 := ⟨fuel - 2, by omega⟩
      have ha' : ¬ (m ≤ a) := by omega
      simp only [ciLoop, hpk, pendingLoop, hfl, ha', hl li, hpu pi,
        if_pos rfl, if_neg hfl, if_neg ha', if_true, Option.getD_some]
      refine Eq.trans (withPre_map_counts _ _ _ _ _
        (ih (a + 1) (k + 1) (li + 1) (pi + 1) (wi + 2) _ (t + 1)
          (by omega) (by omega))) ?_
      simp [probeCount, pushCount, List.countP_cons, List.countP_append, isProbeEv, isPushEv]
      omega

/-- C1: in a run where every `get_ci_status` call reports no pending checks
and a non-empty failed list, every `attempt_lint_fix` reports changes, and
every `commit_and_push` succeeds, `run_ci_auto_fix` returns 1 having called
`get_ci_status` exactly `max_retries + 1` times and `commit_and_push`
exactly `max_retries` times (given enough fuel for the bounded run). -/
theorem run_allFailing_exhausts_retries (o : Oracle) (m fuel : Nat)
    (hp : ∀ j, ∃ fl, fl ≠ [] ∧ o.probe j = some ([], fl))
    (hl : ∀ j, o.lint j = true) (hpu : ∀ j, o.push j = true)
    (hfuel : m + 2 ≤ fuel) :
    (run_ci_auto_fix o m fuel).map
      (fun r => (r.code, probeCount r.tr, pushCount r.tr)) = some (1, m + 1, m) := by
  have h := ciLoop_allFailing o m hp hl hpu m 0 0 0 0 1
    (pyLog (o.logOk 0) [] Msg.start) fuel (by omega) hfuel
  unfold run_ci_auto_fix
  cases hc : ciLoop o m fuel 0 0 0 0 1 (pyLog (o.logOk 0) [] Msg.start) with
  | none => rw [hc] at h; simp at h
  | some r =>
      rw [hc] at h
      simp at h ⊢
      obtain ⟨h1, h2, h3⟩ := h
      exact ⟨h1, h2, h3⟩

/-- Witness for C1: the concrete scenario-C oracle with `max_retries = 3`
does exit with code 1 after 4 probes and 3 publishes. -/
theorem run_allFailing_exhausts_retries_witness :
    (run_ci_auto_fix failOracle 3 8).map
      (fun r => (r.code, probeCount r.tr, pushCount r.tr)) = some (1, 4, 3) :=
  run_allFailing_exhausts_retries failOracle 3 8
    (fun _ => ⟨[cFail], by simp, rfl⟩) (fun _ => rfl) (fun _ => rfl) (by omega)

/-! ## C2 — a failing publish ends the run immediately with exit 2 -/

/-- Events that can appear in a pending-wait trace: probes and log lines. -/
def probeOrLog : Ev → Bool
  | Ev.probe _ => true
  | Ev.log _ => true
  | _ => false

/-- Decomposition of a successful `pendWithPre`. -/
theorem pendWithPre_eq_some (pre : List Ev) (X : Option PendRes) (r : PendRes) :
    pendWithPre pre X = some r ↔
      ∃ r', X = some r' ∧ r = { r' with tr := pre ++ r'.tr } := by
  cases X <;> simp [pendWithPre, eq_comm]

/-- Decomposition of a successful `withPre`. -/
theorem withPre_eq_some (pre : List Ev) (X : Option RunRes) (r : RunRes) :
    withPre pre X = some r ↔
      ∃ r', X = some r' ∧ r = { r' with tr := pre ++ r'.tr } := by
  cases X <;> simp [withPre, eq_comm]

/-- Every event recorded by the pending-wait loop is a probe or a log line. -/
theorem pendingLoop_tr_probeOrLog (o : Oracle) :
    ∀ fuel k wi file p f r, pendingLoop o fuel k wi file p f = some r →
      ∀ e ∈ r.tr, probeOrLog e = true := by
  intro fuel
  induction fuel with
  | zero => intro k wi file p f r h; simp [pendingLoop] at h
  | succ fuel ih =>
      intro k wi file p f r h
      cases p with
      | none =>
          simp only [pendingLoop] at h
          cases h
          intro e he
          simp at he
      | some pl =>
          simp only [pendingLoop] at h
          by_cases hpl : pl = []
          · rw [if_pos hpl] at h
            cases h
            intro e he
            simp at he
          · rw [if_neg hpl] at h
            cases hpk : o.probe k with
            | none =>
                rw [hpk] at h
                cases h
                intro e he
                simp only [List.mem_cons, List.mem_singleton] at he
                rcases he with he | he | he
                · rw [he]; rfl
                · rw [he]; rfl
                · simp at he
            | some pf =>
                rw [hpk] at h
                obtain ⟨pl', fl'⟩ := pf
                rw [pendWithPre_eq_some] at h
                obtain ⟨r', hrec, rfl⟩ := h
                intro e he
                simp only [List.cons_append, List.nil_append, List.mem_cons] at he
                rcases he with he | he | he
                · rw [he]; rfl
                · rw [he]; rfl
                · exact ih (k + 1) (wi + 1) _ (some pl') (some fl') r' hrec e he

/-- `stopsOnPushFailure tr` checks that if a failed publish (`push false`)
occurs in `tr`, nothing after it is a collaborator invocation (only the
final "Commit/push failed" log line may follow). -/
def stopsOnPushFailure : List Ev → Bool
  | [] => true
  | Ev.push false :: rest => rest.all (fun e => !isCallEv e)
  | _ :: rest => stopsOnPushFailure rest

/-- Skipping an event that is not a failed publish. -/
theorem stopsOnPushFailure_cons (e : Ev) (l : List Ev) (h : e ≠ Ev.push false) :
    stopsOnPushFailure (e :: l) = stopsOnPushFailure l := by
  cases e with
  | push b => cases b with
    | false => exact absurd rfl h
    | true => rfl
  | probe q => rfl
  | fetchLogs => rfl
  | lintFix b => rfl
  | claudeFix => rfl
  | log msg => rfl

/-- Skipping a prefix free of failed publishes. -/
theorem stopsOnPushFailure_append (xs l : List Ev) (h : ∀ e ∈ xs, e ≠ Ev.push false) :
    stopsOnPushFailure (xs ++ l) = stopsOnPushFailure l := by
  induction xs with
  | nil => rfl
  | cons x xs ihx =>
      rw [List.cons_append, stopsOnPushFailure_cons x _ (h x (by simp))]
      exact ihx (fun e he => h e (by simp [he]))

/-- A trace without failed publishes satisfies `stopsOnPushFailure`. -/
theorem stopsOnPushFailure_of_no_failure (l : List Ev) (h : ∀ e ∈ l, e ≠ Ev.push false) :
    stopsOnPushFailure l = true := by
  have := stopsOnPushFailure_append l [] h
  rw [List.append_nil] at this
  rw [this]
  rfl

/-- Probe and log events are not failed publishes. -/
theorem probeOrLog_ne_pushFalse (e : Ev) (h : probeOrLog e = true) : e ≠ Ev.push false := by
  cases e <;> simp_all [probeOrLog]

/-- Traces without a failed publish satisfy both C2 conclusions trivially. -/
theorem no_pushFalse_parts (tr : List Ev) (C : Prop)
    (h : ∀ e ∈ tr, e ≠ Ev.push false) :
    stopsOnPushFailure tr = true ∧ (Ev.push false ∈ tr → C) :=
  ⟨stopsOnPushFailure_of_no_failure tr h, fun hm => absurd rfl (h _ hm)⟩

/-- Induction core for C2: every terminated loop trace satisfies
`stopsOnPushFailure`, and a failed publish in the trace forces exit code 2. -/
theorem ciLoop_push_failure_stops (o : Oracle) (m : Nat) :
    ∀ fuel a k li pi wi file r, ciLoop o m fuel a k li pi wi file = some r →
      stopsOnPushFailure r.tr = true ∧ (Ev.push false ∈ r.tr → r.code = 2) := by
  intro fuel
  induction fuel with
  | zero => intro a k li pi wi file r h; simp [ciLoop] at h
  | succ fuel ih =>
      intro a k li pi wi file r h
      simp only [ciLoop] at h
      cases hpk : o.probe k with
      | none =>
          rw [hpk] at h
          rw [withPre_eq_some] at h
          obtain ⟨r', hrec, rfl⟩ := h
          obtain ⟨h1, h2⟩ := ih a (k + 1) li pi wi file r' hrec
          constructor
          · show stopsOnPushFailure (Ev.probe none :: r'.tr) = true
            rw [stopsOnPushFailure_cons _ _ (by decide)]
            exact h1
          · intro hm
            have hm' : Ev.push false ∈ Ev.probe none :: r'.tr := hm
            rcases List.mem_cons.mp hm' with he | he
            · simp at he
            · exact h2 he
      | some pf =>
          obtain ⟨pl, fl⟩ := pf
          simp only [hpk] at h
          cases hpl : pendingLoop o fuel (k + 1) wi file (some pl) (some fl) with
          | none => rw [hpl] at h; simp at h
          | some pr =>
              simp only [hpl] at h
              have hpr := pendingLoop_tr_probeOrLog o fuel (k + 1) wi file
                (some pl) (some fl) pr hpl
              have hprB : ∀ e ∈ pr.tr, e ≠ Ev.push false :=
                fun e he => probeOrLog_ne_pushFalse e (hpr e he)
              by_cases hfe : pr.failed.getD [] = []
              · rw [if_pos hfe] at h
                cases h
                refine no_pushFalse_parts _ _ ?_
                intro e he
                rcases List.mem_cons.mp he with he | he
                · rw [he]; simp
                · rcases List.mem_append.mp he with he | he
                  · exact hprB e he
                  · simp only [List.mem_singleton] at he
                    rw [he]; simp
              · rw [if_neg hfe] at h
                by_cases hma : m ≤ a
                · rw [if_pos hma] at h
                  cases h
                  refine no_pushFalse_parts _ _ ?_
                  intro e he
                  rcases List.mem_append.mp he with he | he
                  · rcases List.mem_cons.mp he with he | he
                    · rw [he]; simp
                    · rcases List.mem_append.mp he with he | he
                      · exact hprB e he
                      · simp only [List.mem_singleton] at he
                        rw [he]; simp
                  · simp only [List.mem_singleton] at he
                    rw [he]; simp
                · rw [if_neg hma] at h
                  have htr1 : ∀ e ∈ Ev.probe (some (pl, fl)) :: pr.tr ++
                      [Ev.log (Msg.checksFailed ((pr.failed.getD []).length) (a + 1) m)],
                      e ≠ Ev.push false := by
                    intro e he
                    rcases List.mem_cons.mp he with he | he
                    · rw [he]; simp
                    · rcases List.mem_append.mp he with he | he
                      · exact hprB e he
                      · simp only [List.mem_singleton] at he
                        rw [he]; simp
                  by_cases hli : o.lint li = true
                  · rw [if_pos hli] at h
                    by_cases hpi : o.push pi = true
                    · rw [if_pos hpi] at h
                      rw [withPre_eq_some] at h
                      obtain ⟨r', hrec, rfl⟩ := h
                      obtain ⟨h1, h2⟩ := ih (a + 1) pr.k (li + 1) (pi + 1)
                        (pr.wi + 2) _ r' hrec
                      have hstuff : ∀ e ∈ [Ev.fetchLogs, Ev.lintFix true, Ev.push true,
                          Ev.log (Msg.pushedAttempt (a + 1))], e ≠ Ev.push false := by
                        intro e he
                        fin_cases he <;> simp
                      constructor
                      · show stopsOnPushFailure _ = true
                        rw [List.append_assoc, stopsOnPushFailure_append _ _ htr1,
                          stopsOnPushFailure_append _ _ hstuff]
                        exact h1
                      · intro hm
                        have hm' := hm
                        rw [List.append_assoc] at hm'
                        rcases List.mem_append.mp hm' with he | he
                        · exact absurd rfl (htr1 _ he)
                        · rcases List.mem_append.mp he with he | he
                          · simp at he
                          · exact h2 he
                    · rw [if_neg hpi] at h
                      cases h
                      constructor
                      · show stopsOnPushFailure _ = true
                        rw [stopsOnPushFailure_append _ _ htr1]
                        rfl
                      · intro hm
                        rfl
                  · rw [if_neg hli] at h
                    by_cases hpi : o.push pi = true
                    · rw [if_pos hpi] at h
                      rw [withPre_eq_some] at h
                      obtain ⟨r', hrec, rfl⟩ := h
                      obtain ⟨h1, h2⟩ := ih (a + 1) pr.k (li + 1) (pi + 1)
                        (pr.wi + 3) _ r' hrec
                      have hstuff : ∀ e ∈ [Ev.fetchLogs, Ev.lintFix false,
                          Ev.log Msg.lintNoChanges, Ev.claudeFix, Ev.push true,
                          Ev.log (Msg.pushedAttempt (a + 1))], e ≠ Ev.push false := by
                        intro e he
                        fin_cases he <;> simp
                      constructor
                      · show stopsOnPushFailure _ = true
                        rw [List.append_assoc, stopsOnPushFailure_append _ _ htr1,
                          stopsOnPushFailure_append _ _ hstuff]
                        exact h1
                      · intro hm
                        have hm' := hm
                        rw [List.append_assoc] at hm'
                        rcases List.mem_append.mp hm' with he | he
                        · exact absurd rfl (htr1 _ he)
                        · rcases List.mem_append.mp he with he | he
                          · simp at he
                          · exact h2 he
                    · rw [if_neg hpi] at h
                      cases h
                      constructor
                      · show stopsOnPushFailure _ = true
                        rw [stopsOnPushFailure_append _ _ htr1]
                        rfl
                      · intro hm
                        rfl

/-- C2: in any terminated run, once a `commit_and_push` call returns false
the loop returns 2 immediately — after the failed publish event no further
collaborator call (`get_ci_status`, `get_failure_logs`, `attempt_lint_fix`,
`attempt_claude_fix`, or `commit_and_push`) appears in the trace, and the
exit code is 2. -/
theorem push_failure_stops_loop (o : Oracle) (m fuel : Nat) (r : RunRes)
    (h : run_ci_auto_fix o m fuel = some r) :
    stopsOnPushFailure r.tr = true ∧ (Ev.push false ∈ r.tr → r.code = 2) := by
  unfold run_ci_auto_fix at h
  cases hc : ciLoop o m fuel 0 0 0 0 1 (pyLog (o.logOk 0) [] Msg.start) with
  | none => rw [hc] at h; simp at h
  | some r' =>
      rw [hc] at h
      obtain rfl := (Option.some.inj h).symm
      obtain ⟨h1, h2⟩ := ciLoop_push_failure_stops o m fuel 0 0 0 0 1 _ r' hc
      constructor
      · show stopsOnPushFailure (Ev.log Msg.start :: r'.tr) = true
        rw [stopsOnPushFailure_cons _ _ (by decide)]
        exact h1
      · intro hm
        have hm' : Ev.push false ∈ Ev.log Msg.start :: r'.tr := hm
        rcases List.mem_cons.mp hm' with he | he
        · simp at he
        · exact h2 he

/-- The concrete run used to witness C2: one failing check, then a failing
publish; the loop exits 2 right after the failed push. -/
def pushFailRun : RunRes :=
  ⟨2, [Ev.log Msg.start, Ev.probe (some ([], [cFail])), Ev.log (Msg.checksFailed 1 1 3),
       Ev.fetchLogs, Ev.lintFix true, Ev.push false, Ev.log Msg.pushFailedStop],
   [Msg.start, Msg.checksFailed 1 1 3, Msg.pushFailedStop]⟩

/-- Witness for C2 at the concrete failing-publish oracle. -/
theorem push_failure_stops_loop_witness :
    stopsOnPushFailure pushFailRun.tr = true ∧
    (Ev.push false ∈ pushFailRun.tr → pushFailRun.code = 2) :=
  push_failure_stops_loop pushFailOracle 3 3 pushFailRun (by decide)

/-! ## C6 — `attempt_claude_fix` runs iff `attempt_lint_fix` reported no
changes in the same iteration -/

/-- `claudeDiscipline l` holds of a collaborator-call list when every
`claudeFix` call immediately follows a `lintFix` call that returned `false`,
and every `lintFix` call returning `false` is immediately followed by a
`claudeFix` call: the two remediation strategies are paired exactly. -/
def claudeDiscipline : List Ev → Bool
  | [] => true
  | Ev.claudeFix :: _ => false
  | Ev.lintFix false :: Ev.claudeFix :: rest => claudeDiscipline rest
  | Ev.lintFix false :: _ => false
  | _ :: rest => claudeDiscipline rest

/-- Probe and log events, filtered to calls, are skipped by
`claudeDiscipline`. -/
theorem claudeDiscipline_probeOrLog_append (xs l : List Ev)
    (h : ∀ e ∈ xs, probeOrLog e = true) :
    claudeDiscipline ((xs ++ l).filter (fun e => isCallEv e)) =
      claudeDiscipline (l.filter (fun e => isCallEv e)) := by
  induction xs with
  | nil => rfl
  | cons x xs ihx =>
      have hx := h x (by simp)
      have ihx' := ihx (fun e he => h e (by simp [he]))
      cases x with
      | probe q =>
          rw [List.cons_append, List.filter_cons_of_pos (by rfl)]
          exact ihx'
      | log msg =>
          rw [List.cons_append, List.filter_cons_of_neg (by simp [isCallEv])]
          exact ihx'
      | fetchLogs => simp [probeOrLog] at hx
      | lintFix b => simp [probeOrLog] at hx
      | claudeFix => simp [probeOrLog] at hx
      | push b => simp [probeOrLog] at hx

/-- A trace of probes and log lines only satisfies the discipline. -/
theorem claudeDiscipline_of_probeOrLog (xs : List Ev)
    (h : ∀ e ∈ xs, probeOrLog e = true) :
    claudeDiscipline (xs.filter (fun e => isCallEv e)) = true := by
  have h0 := claudeDiscipline_probeOrLog_append xs [] h
  rw [List.append_nil] at h0
  rw [h0]
  rfl

/-- Induction core for C6: the collaborator calls of any terminated loop
trace satisfy `claudeDiscipline`. -/
theorem ciLoop_claude_discipline (o : Oracle) (m : Nat) :
    ∀ fuel a k li pi wi file r, ciLoop o m fuel a k li pi wi file = some r →
      claudeDiscipline (r.tr.filter (fun e => isCallEv e)) = true := by
  intro fuel
  induction fuel with
  | zero => intro a k li pi wi file r h; simp [ciLoop] at h
  | succ fuel ih =>
      intro a k li pi wi file r h
      simp only [ciLoop] at h
      cases hpk : o.probe k with
      | none =>
          rw [hpk] at h
          rw [withPre_eq_some] at h
          obtain ⟨r', hrec, rfl⟩ := h
          exact ih a (k + 1) li pi wi file r' hrec
      | some pf =>
          obtain ⟨pl, fl⟩ := pf
          simp only [hpk] at h
          cases hpl : pendingLoop o fuel (k + 1) wi file (some pl) (some fl) with
          | none => rw [hpl] at h; simp at h
          | some pr =>
              simp only [hpl] at h
              have hpr := pendingLoop_tr_probeOrLog o fuel (k + 1) wi file
                (some pl) (some fl) pr hpl
              by_cases hfe : pr.failed.getD [] = []
              · rw [if_pos hfe] at h
                cases h
                apply claudeDiscipline_of_probeOrLog
                intro e he
                rcases List.mem_cons.mp he with he | he
                · rw [he]; rfl
                · rcases List.mem_append.mp he with he | he
                  · exact hpr e he
                  · simp only [List.mem_singleton] at he
                    rw [he]; rfl
              · rw [if_neg hfe] at h
                have htr1 : ∀ e ∈ Ev.probe (some (pl, fl)) :: pr.tr ++
                    [Ev.log (Msg.checksFailed ((pr.failed.getD []).length) (a + 1) m)],
                    probeOrLog e = true := by
                  intro e he
                  rcases List.mem_cons.mp he with he | he
                  · rw [he]; rfl
                  · rcases List.mem_append.mp he with he | he
                    · exact hpr e he
                    · simp only [List.mem_singleton] at he
                      rw [he]; rfl
                by_cases hma : m ≤ a
                · rw [if_pos hma] at h
                  cases h
                  apply claudeDiscipline_of_probeOrLog
                  intro e he
                  rcases List.mem_append.mp he with he | he
                  · exact htr1 e he
                  · simp only [List.mem_singleton] at he
                    rw [he]; rfl
                · rw [if_neg hma] at h
                  by_cases hli : o.lint li = true
                  · rw [if_pos hli] at h
                    by_cases hpi : o.push pi = true
                    · rw [if_pos hpi] at h
                      rw [withPre_eq_some] at h
                      obtain ⟨r', hrec, rfl⟩ := h
                      have hcd := ih (a + 1) pr.k (li + 1) (pi + 1) (pr.wi + 2) _ r' hrec
                      show claudeDiscipline (List.filter (fun e => isCallEv e) _) = true
                      rw [List.append_assoc, claudeDiscipline_probeOrLog_append _ _ htr1]
                      exact hcd
                    · rw [if_neg hpi] at h
                      cases h
                      show claudeDiscipline (List.filter (fun e => isCallEv e) _) = true
                      rw [claudeDiscipline_probeOrLog_append _ _ htr1]
                      rfl
                  · rw [if_neg hli] at h
                    by_cases hpi : o.push pi = true
                    · rw [if_pos hpi] at h
                      rw [withPre_eq_some] at h
                      obtain ⟨r', hrec, rfl⟩ := h
                      have hcd := ih (a + 1) pr.k (li + 1) (pi + 1) (pr.wi + 3) _ r' hrec
                      show claudeDiscipline (List.filter (fun e => isCallEv e) _) = true
                      rw [List.append_assoc, claudeDiscipline_probeOrLog_append _ _ htr1]
                      exact hcd
                    · rw [if_neg hpi] at h
                      cases h
                      show claudeDiscipline (List.filter (fun e => isCallEv e) _) = true
                      rw [claudeDiscipline_probeOrLog_append _ _ htr1]
                      rfl

/-- C6: in every terminated run, `attempt_claude_fix` is invoked exactly
when `attempt_lint_fix` returned `false` in the same remediation iteration:
in the sequence of collaborator calls, every `claudeFix` immediately follows
a `lintFix` that returned `false`, and every `lintFix` returning `false` is
immediately followed by a `claudeFix`; a `lintFix` returning `true` is never
followed by a `claudeFix`. -/
theorem claude_fix_iff_lint_made_no_changes (o : Oracle) (m fuel : Nat) (r : RunRes)
    (h : run_ci_auto_fix o m fuel = some r) :
    claudeDiscipline (r.tr.filter (fun e => isCallEv e)) = true := by
  unfold run_ci_auto_fix at h
  cases hc : ciLoop o m fuel 0 0 0 0 1 (pyLog (o.logOk 0) [] Msg.start) with
  | none => rw [hc] at h; simp at h
  | some r' =>
      rw [hc] at h
      obtain rfl := (Option.some.inj h).symm
      exact ciLoop_claude_discipline o m fuel 0 0 0 0 1 _ r' hc

/-- Oracle of a run whose lint fix never changes anything, forcing the
claude fix on every remediation iteration. -/
def claudeOracle : Oracle :=
  ⟨fun _ => some ([], [cFail]), fun _ => false, fun _ => true, fun _ => true⟩

/-- The concrete run used to witness C6. -/
def claudeRun : RunRes :=
  ⟨1, [Ev.log Msg.start, Ev.probe (some ([], [cFail])), Ev.log (Msg.checksFailed 1 1 1),
       Ev.fetchLogs, Ev.lintFix false, Ev.log Msg.lintNoChanges, Ev.claudeFix,
       Ev.push true, Ev.log (Msg.pushedAttempt 1), Ev.probe (some ([], [cFail])),
       Ev.log (Msg.checksFailed 1 2 1), Ev.log (Msg.maxReached 1)],
   [Msg.start, Msg.checksFailed 1 1 1, Msg.lintNoChanges, Msg.pushedAttempt 1,
    Msg.checksFailed 1 2 1, Msg.maxReached 1]⟩

/-- Witness for C6 at a concrete run in which the claude fix is used. -/
theorem claude_fix_iff_lint_made_no_changes_witness :
    claudeDiscipline (claudeRun.tr.filter (fun e => isCallEv e)) = true :=
  claude_fix_iff_lint_made_no_changes claudeOracle 1 5 claudeRun (by decide)

/-! ## C10 — swallowed log-write failures never change results -/

/-- The pending-wait loop's control results (probe index, pending, failed,
trace) do not depend on the log-write oracle, the write index, or the file
content. -/
theorem pendingLoop_logOk_indep (o o' : Oracle) (hp : o.probe = o'.probe) :
    ∀ fuel k wi wi' file file' p f,
      (pendingLoop o fuel k wi file p f).map (fun r => (r.k, r.pending, r.failed, r.tr)) =
      (pendingLoop o' fuel k wi' file' p f).map (fun r => (r.k, r.pending, r.failed, r.tr)) := by
  intro fuel
  induction fuel with
  | zero => intro k wi wi' file file' p f; rfl
  | succ fuel ih =>
      intro k wi wi' file file' p f
      cases p with
      | none => rfl
      | some pl =>
          by_cases hpl : pl = []
          · simp only [pendingLoop, if_pos hpl]
            rfl
          · simp only [pendingLoop, if_neg hpl, ← hp]
            cases hpk : o.probe k with
            | none => rfl
            | some pf =>
                obtain ⟨pl', fl'⟩ := pf
                have h12 := ih (k + 1) (wi + 1) (wi' + 1)
                  (pyLog (o.logOk wi) file (Msg.pendingCount pl.length))
                  (pyLog (o'.logOk wi') file' (Msg.pendingCount pl.length))
                  (some pl') (some fl')
                cases ha : pendingLoop o fuel (k + 1) (wi + 1)
                    (pyLog (o.logOk wi) file (Msg.pendingCount pl.length))
                    (some pl') (some fl') with
                | none =>
                    cases hb : pendingLoop o' fuel (k + 1) (wi' + 1)
                        (pyLog (o'.logOk wi') file' (Msg.pendingCount pl.length))
                        (some pl') (some fl') with
                    | none => simp [pendWithPre, ha, hb]
                    | some rb => rw [ha, hb] at h12; simp at h12
                | some ra =>
                    cases hb : pendingLoop o' fuel (k + 1) (wi' + 1)
                        (pyLog (o'.logOk wi') file' (Msg.pendingCount pl.length))
                        (some pl') (some fl') with
                    | none => rw [ha, hb] at h12; simp at h12
                    | some rb =>
                        rw [ha, hb] at h12
                        simp at h12
                        obtain ⟨e1, e2, e3, e4⟩ := h12
                        simp [pendWithPre, ha, hb, e1, e2, e3, e4]

/-- Prefixing preserves equality of the (code, trace) projections. -/
theorem withPre_map_code_tr (pre : List Ev) (X Y : Option RunRes)
    (h : X.map (fun r => (r.code, r.tr)) = Y.map (fun r => (r.code, r.tr))) :
    (withPre pre X).map (fun r => (r.code, r.tr)) =
      (withPre pre Y).map (fun r => (r.code, r.tr)) := by
  cases X with
  | none =>
      cases Y with
      | none => rfl
      | some rb => simp at h
  | some ra =>
      cases Y with
      | none => simp at h
      | some rb =>
          simp at h
          obtain ⟨e1, e2⟩ := h
          simp [withPre, e1, e2]

/-- The loop's exit code and event trace do not depend on the log-write
oracle, the write index, or the file content. -/
theorem ciLoop_logOk_indep (o o' : Oracle) (hp : o.probe = o'.probe)
    (hl : o.lint = o'.lint) (hpu : o.push = o'.push) (m : Nat) :
    ∀ fuel a k li pi wi wi' file file',
      (ciLoop o m fuel a k li pi wi file).map (fun r => (r.code, r.tr)) =
      (ciLoop o' m fuel a k li pi wi' file').map (fun r => (r.code, r.tr)) := by
  intro fuel
  induction fuel with
  | zero => intro a k li pi wi wi' file file'; rfl
  | succ fuel ih =>
      intro a k li pi wi wi' file file'
      simp only [ciLoop, ← hp, ← hl, ← hpu]
      cases hpk : o.probe k with
      | none =>
          simp only []
          exact withPre_map_code_tr _ _ _ (ih a (k + 1) li pi wi wi' file file')
      | some pf =>
          obtain ⟨pl, fl⟩ := pf
          simp only []
          have hpp := pendingLoop_logOk_indep o o' hp fuel (k + 1) wi wi' file file'
            (some pl) (some fl)
          cases ha : pendingLoop o fuel (k + 1) wi file (some pl) (some fl) with
          | none =>
              cases hb : pendingLoop o' fuel (k + 1) wi' file' (some pl) (some fl) with
              | none => rfl
              | some prb => rw [ha, hb] at hpp; simp at hpp
          | some pra =>
              cases hb : pendingLoop o' fuel (k + 1) wi' file' (some pl) (some fl) with
              | none => rw [ha, hb] at hpp; simp at hpp
              | some prb =>
                  rw [ha, hb] at hpp
                  simp at hpp
                  obtain ⟨e1, e2, e3, e4⟩ := hpp
                  simp only []
                  rw [← e1, ← e3, ← e4]
                  by_cases hfe : pra.failed.getD [] = []
                  · rw [if_pos hfe, if_pos hfe]
                    rfl
                  · rw [if_neg hfe, if_neg hfe]
                    by_cases hma : m ≤ a
                    · rw [if_pos hma, if_pos hma]
                      rfl
                    · rw [if_neg hma, if_neg hma]
                      by_cases hli : o.lint li = true
                      · rw [if_pos hli, if_pos hli]
                        by_cases hpi : o.push pi = true
                        · rw [if_pos hpi, if_pos hpi]
                          exact withPre_map_code_tr _ _ _
                            (ih (a + 1) pra.k (li + 1) (pi + 1) (pra.wi + 2) (prb.wi + 2) _ _)
                        · rw [if_neg hpi, if_neg hpi]
                          rfl
                      · rw [if_neg hli, if_neg hli]
                        by_cases hpi : o.push pi = true
                        · rw [if_pos hpi, if_pos hpi]
                          exact withPre_map_code_tr _ _ _
                            (ih (a + 1) pra.k (li + 1) (pi + 1) (pra.wi + 3) (prb.wi + 3) _ _)
                        · rw [if_neg hpi, if_neg hpi]
                          rfl

/-- C10: `_log` (embedded as `pyLog`) returns normally with the file
unchanged when the write fails, and consequently log-write success never
influences results: two runs of `run_ci_auto_fix` over oracles that agree
on probes, lint fixes, and publishes — and differ arbitrarily in log-write
success — produce the same exit code and the same collaborator-call trace;
likewise `commit_and_push`'s boolean result is independent of log-write
success.  (`get_ci_status` and `attempt_lint_fix` perform no log writes at
all, as their embeddings show.) -/
theorem log_failures_do_not_change_outcomes (o o' : Oracle)
    (hp : o.probe = o'.probe) (hl : o.lint = o'.lint) (hpu : o.push = o'.push)
    (m fuel : Nat) (e : PushEnv) (w w' : Nat → Bool) (wi wi' : Nat)
    (file fl2 : List Msg) (msg : Msg) :
    (run_ci_auto_fix o m fuel).map (fun r => (r.code, r.tr)) =
      (run_ci_auto_fix o' m fuel).map (fun r => (r.code, r.tr)) ∧
    (commit_and_push e w wi file).1 = (commit_and_push e w' wi' file).1 ∧
    pyLog false fl2 msg = fl2 := by
  refine ⟨?_, ?_, rfl⟩
  · have h := ciLoop_logOk_indep o o' hp hl hpu m fuel 0 0 0 0 1 1
      (pyLog (o.logOk 0) [] Msg.start) (pyLog (o'.logOk 0) [] Msg.start)
    unfold run_ci_auto_fix
    cases ha : ciLoop o m fuel 0 0 0 0 1 (pyLog (o.logOk 0) [] Msg.start) with
    | none =>
        cases hb : ciLoop o' m fuel 0 0 0 0 1 (pyLog (o'.logOk 0) [] Msg.start) with
        | none => rfl
        | some rb => rw [ha, hb] at h; simp at h
    | some ra =>
        cases hb : ciLoop o' m fuel 0 0 0 0 1 (pyLog (o'.logOk 0) [] Msg.start) with
        | none => rw [ha, hb] at h; simp at h
        | some rb =>
            rw [ha, hb] at h
            simp at h ⊢
            exact h
  · by_cases h1 : e.commitExit ≠ 0
    · simp [commit_and_push, h1]
    · by_cases h2 : e.pushExit ≠ 0
      · simp [commit_and_push, h1, h2]
      · simp [commit_and_push, h1, h2]

/-- The scenario-C oracle with every log write failing. -/
def failOracleNoLog : Oracle :=
  ⟨fun _ => some ([], [cFail]), fun _ => true, fun _ => true, fun _ => false⟩

/-- Witness for C10: a run with all log writes succeeding and the same run
with all log writes failing produce identical exit codes and call traces,
and a failing write leaves the file untouched. -/
theorem log_failures_do_not_change_outcomes_witness :
    (run_ci_auto_fix failOracle 3 8).map (fun r => (r.code, r.tr)) =
      (run_ci_auto_fix failOracleNoLog 3 8).map (fun r => (r.code, r.tr)) ∧
    (commit_and_push ⟨0, 0⟩ (fun _ => true) 0 []).1 =
      (commit_and_push ⟨0, 0⟩ (fun _ => false) 5 []).1 ∧
    pyLog false [] Msg.start = [] :=
  log_failures_do_not_change_outcomes failOracle failOracleNoLog rfl rfl rfl
    3 8 ⟨0, 0⟩ (fun _ => true) (fun _ => false) 0 5 [] [] Msg.start
